import Mathlib

/-!
# Migration orchestrator (`main.go`) — shallow embedding and checked properties

The development follows `src/main.go`:

* the Go library calls the program relies on (`fmt.Sscanf` with the verb `%d`,
  `strconv.ParseInt`, `fmt.Sprintf` with `%d`, `strings.Trim`, `sort.Ints`,
  `exec.Cmd.CombinedOutput`, `ioutil.WriteFile`) are modelled first;
* then `detectVersion`, `listMigrations`, `runMigration`, `upgrade`, `downgrade`
  and the command dispatch of `main`;
* then the theorems.

Go's `int` is the 64-bit signed integer; version numbers are `Int` here and the only
place where the width matters (`strconv.ParseInt`) checks it explicitly.
Logger output is not part of the model; the observable behaviour of a run is its
termination status, the final content of the version file and the ordered list of
external effects (`Event`). The outside world (`World`) fixes, for one run, how each
migration unit ends in each mode and how each write of the version file ends.
-/

namespace Migrations

/-! ## Go library models -/

/-- Errors raised by the scanner behind `fmt.Sscanf(s, "%d", &d)`. -/
inductive ScanError
  | eof
  | unexpectedNewline
  | expectedInteger
  | badNumber
  | outOfRange
  deriving DecidableEq, Repr

/-- The `space` table of Go's `fmt` package (inclusive rune ranges). -/
def space : List (Nat × Nat) :=
  [(0x0009, 0x000d), (0x0020, 0x0020), (0x0085, 0x0085), (0x00a0, 0x00a0),
   (0x1680, 0x1680), (0x2000, 0x200a), (0x2028, 0x2029), (0x202f, 0x202f),
   (0x205f, 0x205f), (0x3000, 0x3000)]

/-- The range walk of `fmt.isSpace`. -/
def inRanges (rx : Nat) : List (Nat × Nat) → Bool
  | [] => false
  | rng :: rest =>
    if rx < rng.1 then false
    else if rx ≤ rng.2 then true
    else inRanges rx rest

/-- Go `fmt.isSpace`. -/
def isSpace (r : Char) : Bool :=
  if r.toNat ≥ 2 ^ 16 then false else inRanges r.toNat space

/-- Go `(*ss).SkipSpace` with `nlIsSpace = false` (the `Sscanf` setting): blanks are
consumed, a newline is an error, the first other rune is left in the input. -/
def SkipSpace : List Char → Except ScanError (List Char)
  | [] => .ok []
  | r :: rest =>
    if r.toNat = 13 ∧ rest.head? = some (Char.ofNat 10) then SkipSpace rest
    else if r.toNat = 10 then .error .unexpectedNewline
    else if isSpace r then SkipSpace rest
    else .ok (r :: rest)

/-- Whether a rune is one of `0` .. `9`: membership in Go `decimalDigits`, the digit set
that `getBase` gives the scanner for the verb `d` (the underscore is accepted only under
the verb `v`). -/
def isDecimal (c : Char) : Bool := 48 ≤ c.toNat && c.toNat ≤ 57

/-- The sign set of the scanner: Go `sign = "+-"`. -/
def isSign (c : Char) : Bool := c = '+' || c = '-'

/-- `maxUint64`. -/
def maxUint64 : Nat := 2 ^ 64 - 1

/-- The digit loop of Go `strconv.ParseUint(s, 10, 64)`: `n` is the `uint64`
accumulator; a byte that is not a decimal digit is a syntax error, and both overflow
checks of the source are kept. -/
def parseUintLoop : List Char → Nat → Except ScanError Nat
  | [], n => .ok n
  | c :: cs, n =>
    if isDecimal c then
      let d := c.toNat - 48
      if n ≥ maxUint64 / 10 + 1 then .error .outOfRange
      else
        let n10 := (n * 10) % 2 ^ 64
        let n1 := (n10 + d) % 2 ^ 64
        if n1 < n10 ∨ n1 > maxUint64 then .error .outOfRange
        else parseUintLoop cs n1
    else .error .badNumber

/-- Go `strconv.ParseUint(s, 10, 64)`. -/
def ParseUint (s : List Char) : Except ScanError Nat :=
  if s = [] then .error .badNumber else parseUintLoop s 0

/-- Go `strconv.ParseInt(s, 10, 64)`: an optional leading sign, then `ParseUint`, then
the signed range check against `cutoff = 1 << 63`. -/
def ParseInt (s : List Char) : Except ScanError Int :=
  match s with
  | [] => .error .badNumber
  | c :: cs =>
    let neg := c = '-'
    let body := if c = '+' ∨ c = '-' then cs else c :: cs
    match ParseUint body with
    | .error e => .error e
    | .ok un =>
      if ¬ neg ∧ un ≥ 2 ^ 63 then .error .outOfRange
      else if neg ∧ un > 2 ^ 63 then .error .outOfRange
      else .ok (if neg then - (un : Int) else (un : Int))

/-- Go `(*ss).scanInt` for the verb `d` on a 64-bit `int`: skip blanks, fail at end of
input, accept one sign, require one digit, take the longest run of decimal digits, and
hand the token to `ParseInt`. The result is the value and the unread input. The blanks
are skipped by `doScanf` and again by `scanInt`, which amounts to skipping them once;
the bit-size check after `ParseInt` is void for 64 bits. -/
def scanInt (input : List Char) : Except ScanError (Int × List Char) :=
  match SkipSpace input with
  | .error e => .error e
  | .ok [] => .error .eof
  | .ok (c :: cs) =>
    let signTok := if isSign c then [c] else []
    let afterSign := if isSign c then cs else c :: cs
    match afterSign with
    | [] => .error .eof
    | d :: _ =>
      if ¬ isDecimal d then .error .expectedInteger
      else
        let tok := afterSign.takeWhile isDecimal
        match ParseInt (signTok ++ tok) with
        | .error e => .error e
        | .ok i => .ok (i, afterSign.dropWhile isDecimal)

/-- Go `fmt.Sscanf(str, "%d", &d)`: the number of operands stored, the error, and the
value stored in `d` (zero when nothing was stored). Input after the integer is left
unread and is not an error. -/
def Sscanf (str : String) : Nat × Option ScanError × Int :=
  match scanInt str.data with
  | .error e => (0, some e, 0)
  | .ok (i, _) => (1, none, i)

/-- Go `fmt.Sprintf("%d", v)`. -/
def Sprintf (v : Int) : String :=
  if v < 0 then ⟨'-' :: Nat.toDigits 10 v.natAbs⟩ else ⟨Nat.toDigits 10 v.toNat⟩

/-- Go `strings.Trim(s, cutset)`: drop leading and trailing runes that are in `cutset`. -/
def Trim (s : String) (cutset : String) : String :=
  ⟨((s.data.dropWhile (fun c => cutset.data.contains c)).reverse.dropWhile
      (fun c => cutset.data.contains c)).reverse⟩

/-- Go `sort.Ints`: the ascending arrangement of the slice. -/
def sortInts (versions : List Int) : List Int :=
  versions.insertionSort (fun a b => a ≤ b)

/-- Go `sort.Sort(sort.Reverse(sort.IntSlice(versions)))`: the descending arrangement. -/
def sortReverse (versions : List Int) : List Int :=
  versions.insertionSort (fun a b => a ≥ b)

/-- What happens when an external command is run to completion with
`exec.Cmd.CombinedOutput`: it cannot be started, or it runs and ends with an exit
status. -/
inductive Launch
  | cannotStart
  | exited (status : Nat)
  deriving DecidableEq, Repr

/-- Whether `cmd.CombinedOutput()` returns a non-nil error: Go returns an error when the
command cannot be started and an `*exec.ExitError` when it ends with a status other
than zero. -/
def Launch.err : Launch → Bool
  | .cannotStart => true
  | .exited status => status ≠ 0

/-- Go `cmd.ProcessState.ExitCode()`: the status, or -1 when there is no process state. -/
def Launch.ExitCode : Launch → Int
  | .cannotStart => -1
  | .exited status => status

/-! ## The program state -/

/-- The version state file `version.state` as `ioutil.ReadFile` sees it. -/
inductive FileState
  | absent
  | unreadable
  | content (data : String)
  deriving DecidableEq, Repr

/-- Result of one `ioutil.WriteFile` on the version file: written, or failed with the
error text `err`, leaving the file in the state `left`. -/
inductive WriteResult
  | done
  | failed (left : FileState) (err : String)
  deriving DecidableEq, Repr

/-- The mode passed to a migration unit: `-up` or `-down`. -/
inductive Action
  | up
  | down
  deriving DecidableEq, Repr

/-- One file of `migrations/`: how `go run <file> -v` ends and what it prints. -/
structure MigrationFile where
  query : Launch
  output : String
  deriving DecidableEq, Repr

/-- Everything outside the process that a run depends on. -/
structure World where
  /-- Content of `versionFilePath`. -/
  versionFile : FileState
  /-- Files of `migrationsDirectory` in `ReadDir` order; `none` when `ReadDir` fails. -/
  migrationsDirectory : Option (List MigrationFile)
  /-- How `go run migrations/<v>.go <action>` ends. -/
  launch : Int → Action → Launch
  /-- How a `WriteFile` of the given data to the version file ends. -/
  write : String → WriteResult
  /-- Whether the file operations of `generateNewMigration` all succeed. -/
  canGenerate : Bool

/-- The errors of `detectVersion` and `listMigrations`. -/
inductive Error
  | ErrCurrentVersionStateCorrupted
  | ErrCannotRetrieveCurrentVersion
  | readFailed
  | commandFailed
  | scan (e : ScanError)
  deriving DecidableEq, Repr

/-- External effects of a run, in order. -/
inductive Event
  /-- The catalog was discovered (`listMigrations` was called). -/
  | listed
  /-- A migration unit was invoked through `runMigration`. -/
  | ran (v : Int) (action : Action)
  /-- `WriteFile` was called on the version file with this data. -/
  | wrote (data : String)
  /-- Text written to standard output by one `fmt.Print*` call, newline included. -/
  | printed (text : String)
  /-- The generator ran. -/
  | generated
  deriving DecidableEq, Repr

/-- How the process (or a function without result) ends. -/
inductive Status
  | returned
  | exited (code : Nat)
  | panicked
  deriving DecidableEq, Repr

/-- Observable outcome of a command. -/
structure Result where
  status : Status
  versionFile : FileState
  events : List Event
  deriving DecidableEq, Repr

/-- Outcome of a `for` loop: `exit = none` when control reaches the statement after the
loop (`break` or end of range), `some st` when the function ended inside the loop. -/
structure Loop where
  exit : Option Status
  versionFile : FileState
  events : List Event
  deriving DecidableEq, Repr

/-- Outcome of `runMigration`. -/
inductive RunResult
  | panicked
  | returned (success : Bool)
  deriving DecidableEq, Repr

deriving instance DecidableEq for Except

/-! ## `main.go` -/

/-- The sentinel `fullUpdate = -1`. -/
def fullUpdate : Int := -1

/-- Source `detectVersion`, reading the given version file. -/
def detectVersion (file : FileState) : Except Error Int :=
  match file with
  | .absent => .error .ErrCannotRetrieveCurrentVersion
  | .unreadable => .error .readFailed
  | .content data =>
    let versionData := Trim data ""
    match Sscanf versionData with
    | (_, some e, _) => .error (.scan e)
    | (parsed, none, d) =>
      if parsed = 0 then .error .ErrCurrentVersionStateCorrupted
      else .ok d

/-- The file loop of `listMigrations`. -/
def listMigrationsLoop : List MigrationFile → List Int → Except Error (List Int)
  | [], versions => .ok versions
  | file :: files, versions =>
    if file.query.err then .error .commandFailed
    else
      match Sscanf file.output with
      | (_, some e, _) => .error (.scan e)
      | (_, none, version) => listMigrationsLoop files (versions ++ [version])

/-- Source `listMigrations`. -/
def listMigrations (dir : Option (List MigrationFile)) : Except Error (List Int) :=
  match dir with
  | none => .error .readFailed
  | some files => listMigrationsLoop files []

/-- Source `runMigration`: any error of `CombinedOutput` is a panic; otherwise the
result is `exitCode == 0`. -/
def runMigration (w : World) (v : Int) (action : Action) : RunResult :=
  if (w.launch v action).err then .panicked
  else .returned ((w.launch v action).ExitCode == 0)

/-- The `for _, v := range versions` loop of `upgrade` (lines 200-224). -/
def upgradeLoop (w : World) (targetVersion currentVersion : Int) :
    List Int → FileState → Loop
  | [], file => ⟨none, file, []⟩
  | v :: rest, file =>
    if v > currentVersion ∧ targetVersion ≠ fullUpdate then ⟨none, file, []⟩
    else if currentVersion ≥ v then upgradeLoop w targetVersion currentVersion rest file
    else
      match runMigration w v .up with
      | .panicked => ⟨some .panicked, file, [.ran v .up]⟩
      | .returned false => ⟨some .returned, file, [.ran v .up]⟩
      | .returned true =>
        match w.write (Sprintf v) with
        | .failed left _ => ⟨some (.exited 1), left, [.ran v .up, .wrote (Sprintf v)]⟩
        | .done =>
          let r := upgradeLoop w targetVersion currentVersion rest (.content (Sprintf v))
          ⟨r.exit, r.versionFile, .ran v .up :: .wrote (Sprintf v) :: r.events⟩

/-- Source `upgrade`. -/
def upgrade (w : World) (targetVersion : Int) : Result :=
  match detectVersion w.versionFile with
  | .error _ => ⟨.exited 1, w.versionFile, []⟩
  | .ok currentVersion =>
    if targetVersion < currentVersion ∧ targetVersion ≠ fullUpdate then
      ⟨.exited 1, w.versionFile, []⟩
    else
      match listMigrations w.migrationsDirectory with
      | .error _ => ⟨.panicked, w.versionFile, [.listed]⟩
      | .ok versions =>
        let r := upgradeLoop w targetVersion currentVersion (sortInts versions) w.versionFile
        ⟨r.exit.getD .returned, r.versionFile, .listed :: r.events⟩

/-- The `for _, v := range versions` loop of `downgrade` (lines 142-165). -/
def downgradeLoop (w : World) (targetVersion currentVersion : Int) :
    List Int → FileState → Loop
  | [], file => ⟨none, file, []⟩
  | v :: rest, file =>
    if v < targetVersion ∧ targetVersion ≠ fullUpdate then ⟨none, file, []⟩
    else if currentVersion ≤ v then downgradeLoop w targetVersion currentVersion rest file
    else
      match runMigration w v .down with
      | .panicked => ⟨some .panicked, file, [.ran v .down]⟩
      | .returned false => ⟨some .returned, file, [.ran v .down]⟩
      | .returned true =>
        match w.write (Sprintf v) with
        | .failed left _ => ⟨some (.exited 1), left, [.ran v .down, .wrote (Sprintf v)]⟩
        | .done =>
          let r := downgradeLoop w targetVersion currentVersion rest (.content (Sprintf v))
          ⟨r.exit, r.versionFile, .ran v .down :: .wrote (Sprintf v) :: r.events⟩

/-- Lines printed when the closing write of `downgrade` fails (line 169). -/
def msgSaveFailed : String := "Failed to save applied version\n"

/-- Source `downgrade`. The write of `"0"` after the loop (line 167) runs whenever the
loop is left by `break` or by reaching the end of the range; when it fails the message
of line 169 and the error (line 170) are printed with `fmt.Println`. -/
def downgrade (w : World) (targetVersion : Int) : Result :=
  match detectVersion w.versionFile with
  | .error _ => ⟨.exited 1, w.versionFile, []⟩
  | .ok currentVersion =>
    if targetVersion > currentVersion then ⟨.exited 1, w.versionFile, []⟩
    else
      match listMigrations w.migrationsDirectory with
      | .error _ => ⟨.panicked, w.versionFile, [.listed]⟩
      | .ok versions =>
        let r := downgradeLoop w targetVersion currentVersion (sortReverse versions)
          w.versionFile
        match r.exit with
        | some st => ⟨st, r.versionFile, .listed :: r.events⟩
        | none =>
          match w.write "0" with
          | .failed left err =>
            ⟨.exited 1, left, .listed :: (r.events ++
              [.wrote "0", .printed msgSaveFailed, .printed (err ++ "\n")])⟩
          | .done => ⟨.returned, .content "0", .listed :: (r.events ++ [.wrote "0"])⟩

/-- Source `generateNewMigration`, as far as the version file is concerned: it writes a
new unit under `migrations/` and never touches the version file; a failing file
operation is a panic. -/
def generateNewMigration (w : World) : Result :=
  if w.canGenerate then ⟨.returned, w.versionFile, [.generated]⟩
  else ⟨.panicked, w.versionFile, [.generated]⟩

/-- The parsed command line of `main`; `targetVersion` defaults to `fullUpdate`. -/
structure Flags where
  generate : Bool
  up : Bool
  down : Bool
  state : Bool
  time : Bool
  init : Bool
  targetVersion : Int
  deriving DecidableEq, Repr

/-- Line printed when initialisation fails (line 57). -/
def msgInitFailed : String := "failed to initialiaze migration version control system\n"

/-- Line printed when initialisation succeeds (line 61). -/
def msgInitialized : String := "migration version control system initialized\n"

/-- Source `main` after flag parsing: the first flag set, in the order `generate`,
`init`, `up`, `down`, `state`, selects the command; with none set `flag.Usage` writes to
standard error. -/
def main (w : World) (flags : Flags) : Result :=
  if flags.generate then generateNewMigration w
  else if flags.init then
    match w.write "0" with
    | .failed left err =>
      ⟨.returned, left, [.wrote "0", .printed msgInitFailed, .printed (err ++ "\n")]⟩
    | .done => ⟨.returned, .content "0", [.wrote "0", .printed msgInitialized]⟩
  else if flags.up then upgrade w flags.targetVersion
  else if flags.down then downgrade w flags.targetVersion
  else if flags.state then
    match detectVersion w.versionFile with
    | .error _ => ⟨.exited 1, w.versionFile, []⟩
    | .ok version => ⟨.returned, w.versionFile, [.printed (Sprintf version)]⟩
  else ⟨.returned, w.versionFile, []⟩

/-! ## Reading a run -/

/-- The migration units a run invoked, in order. -/
def invoked : List Event → List (Int × Action)
  | [] => []
  | .ran v action :: rest => (v, action) :: invoked rest
  | _ :: rest => invoked rest

/-- The data a run passed to `WriteFile` on the version file, in order. -/
def written : List Event → List String
  | [] => []
  | .wrote data :: rest => data :: written rest
  | _ :: rest => written rest

/-- A unit that runs and reports success in the given mode. -/
def succeeds (w : World) (action : Action) (v : Int) : Bool :=
  w.launch v action = .exited 0

/-- A directory whose units report the given versions. -/
def unitsOf (versions : List Int) : Option (List MigrationFile) :=
  some (versions.map (fun v => ⟨.exited 0, Sprintf v ++ "\n"⟩))

/-- A world where every unit succeeds and every write succeeds. -/
def calm (file : FileState) (versions : List Int) : World :=
  ⟨file, unitsOf versions, fun _ _ => .exited 0, fun _ => .done, true⟩

/-! ## Definitions used by the statements and proofs -/

/-- The values of Go's 64-bit `int`. -/
def inRange (v : Int) : Prop := -(2 ^ 63 : Int) ≤ v ∧ v < (2 ^ 63 : Int)

instance (v : Int) : Decidable (inRange v) := by unfold inRange; infer_instance

/-- The common shape of the two `for` loops: `brk` is the `break` test, `skip` the
`continue` test, `action` the mode passed to `runMigration`. -/
def stepLoop (w : World) (brk skip : Int → Bool) (action : Action) :
    List Int → FileState → Loop
  | [], file => ⟨none, file, []⟩
  | v :: rest, file =>
    if brk v then ⟨none, file, []⟩
    else if skip v then stepLoop w brk skip action rest file
    else
      match runMigration w v action with
      | .panicked => ⟨some .panicked, file, [.ran v action]⟩
      | .returned false => ⟨some .returned, file, [.ran v action]⟩
      | .returned true =>
        match w.write (Sprintf v) with
        | .failed left _ => ⟨some (.exited 1), left, [.ran v action, .wrote (Sprintf v)]⟩
        | .done =>
          let r := stepLoop w brk skip action rest (.content (Sprintf v))
          ⟨r.exit, r.versionFile, .ran v action :: .wrote (Sprintf v) :: r.events⟩

/-- The version file after the units in `done` were recorded in order, from `file`. -/
def fileAfter (file : FileState) (done : List Int) : FileState :=
  match done.getLast? with
  | some v => .content (Sprintf v)
  | none => file

/-- The units a loop would reach: those before the first `break`, minus the skipped. -/
def reached (brk skip : Int → Bool) (vs : List Int) : List Int :=
  (vs.takeWhile (fun v => !brk v)).filter (fun v => !skip v)

/-- The statements of `downgrade` after its loop (lines 167-174), given the loop's
outcome. -/
def afterLoop (w : World) (r : Loop) : Result :=
  match r.exit with
  | some st => ⟨st, r.versionFile, .listed :: r.events⟩
  | none =>
    match w.write "0" with
    | .failed left err =>
      ⟨.exited 1, left, .listed :: (r.events ++
        [.wrote "0", .printed msgSaveFailed, .printed (err ++ "\n")])⟩
    | .done => ⟨.returned, .content "0", .listed :: (r.events ++ [.wrote "0"])⟩

/-- Every successful invocation in the mode `a` is directly followed by the write of
that same version. -/
def Recorded (w : World) (a : Action) (evs : List Event) : Prop :=
  ∀ (pre post : List Event) (v : Int), evs = pre ++ .ran v a :: post →
    succeeds w a v = true → ∃ tail, post = .wrote (Sprintf v) :: tail

/-- The claim's "greatest catalog version strictly below `v` (0 if there is none)". -/
def versionBelow (cat : List Int) (v : Int) : Int :=
  match (sortReverse (cat.filter (fun u => decide (u < v)))).head? with
  | some u => u
  | none => 0

/-- The world `calm file versions` except that the unit `bad` ends with exit status 1. -/
def failingAt (file : FileState) (versions : List Int) (bad : Int) : World :=
  ⟨file, unitsOf versions, fun v _ => if v = bad then .exited 1 else .exited 0,
    fun _ => .done, true⟩

/-- The command line `-init`. -/
def initFlags : Flags := ⟨false, false, false, false, false, true, fullUpdate⟩

/-! ## Facts about the library models -/

theorem digitChar_decimal (k : Nat) (hk : k < 10) :
    isDecimal (Nat.digitChar k) = true ∧ (Nat.digitChar k).toNat - 48 = k := by
  interval_cases k <;> exact ⟨by decide, by decide⟩

theorem toDigitsCore_decimal (fuel : Nat) :
    ∀ (n : Nat) (acc : List Char), (∀ c ∈ acc, isDecimal c = true) →
      ∀ c ∈ Nat.toDigitsCore 10 fuel n acc, isDecimal c = true := by
  induction fuel with
  | zero => intro n acc hacc c hc; simpa [Nat.toDigitsCore] using hacc c (by simpa [Nat.toDigitsCore] using hc)
  | succ fuel ih =>
    intro n acc hacc c hc
    have hd : isDecimal (Nat.digitChar (n % 10)) = true :=
      (digitChar_decimal (n % 10) (Nat.mod_lt _ (by decide))).1
    have hacc2 : ∀ c ∈ Nat.digitChar (n % 10) :: acc, isDecimal c = true := by
      intro c hc
      rcases List.mem_cons.1 hc with h | h
      · rw [h]; exact hd
      · exact hacc c h
    simp only [Nat.toDigitsCore] at hc
    split at hc
    · exact hacc2 c hc
    · exact ih _ _ hacc2 c hc

theorem toDigitsCore_ne_nil (fuel n : Nat) (acc : List Char) :
    Nat.toDigitsCore 10 (fuel + 1) n acc ≠ [] := by
  induction fuel generalizing n acc with
  | zero => simp [Nat.toDigitsCore]
  | succ fuel ih =>
    rw [Nat.toDigitsCore]
    split
    · simp
    · exact ih _ _

theorem parseUintLoop_toDigitsCore (fuel : Nat) :
    ∀ (n : Nat) (acc : List Char), n < fuel → n < 2 ^ 64 →
      parseUintLoop (Nat.toDigitsCore 10 fuel n acc) 0 = parseUintLoop acc n := by
  induction fuel with
  | zero => intro n acc h; omega
  | succ fuel ih =>
    intro n acc hn hlt
    have hd := digitChar_decimal (n % 10) (Nat.mod_lt _ (by decide))
    have hstep : ∀ m : Nat, m = n / 10 →
        parseUintLoop (Nat.digitChar (n % 10) :: acc) m = parseUintLoop acc n := by
      intro m hm
      have h1 : ¬ (m ≥ maxUint64 / 10 + 1) := by
        simp only [maxUint64]; omega
      have h2 : (m * 10) % 2 ^ 64 = m * 10 := Nat.mod_eq_of_lt (by omega)
      have h3 : (m * 10 + n % 10) % 2 ^ 64 = n := by
        rw [Nat.mod_eq_of_lt (by omega)]; omega
      simp only [parseUintLoop, hd.1, hd.2, if_true, h1, if_false, h2, h3]
      have h4 : ¬ (n < m * 10 ∨ n > maxUint64) := by
        simp only [maxUint64]; omega
      simp only [h4, if_false]
    simp only [Nat.toDigitsCore]
    split
    · next h0 =>
      have := hstep 0 (by omega)
      exact this
    · next h0 =>
      rw [ih (n / 10) _ (by omega) (by omega)]
      exact hstep (n / 10) rfl

theorem toDigits_decimal (n : Nat) : ∀ c ∈ Nat.toDigits 10 n, isDecimal c = true :=
  toDigitsCore_decimal (n + 1) n [] (by simp)

theorem toDigits_ne_nil (n : Nat) : Nat.toDigits 10 n ≠ [] :=
  toDigitsCore_ne_nil n n []

theorem ParseUint_toDigits (n : Nat) (hn : n < 2 ^ 64) :
    ParseUint (Nat.toDigits 10 n) = .ok n := by
  unfold ParseUint
  rw [if_neg (toDigits_ne_nil n)]
  have := parseUintLoop_toDigitsCore (n + 1) n [] (by omega) hn
  simpa [Nat.toDigits, parseUintLoop] using this

theorem isSpace_of_printable (c : Char) (h1 : 33 ≤ c.toNat) (h2 : c.toNat ≤ 126) :
    isSpace c = false := by
  unfold isSpace
  rw [if_neg (by omega)]
  simp only [inRanges, space]
  repeat (first | rw [if_neg (by omega)] | rw [if_pos (by omega)])

theorem SkipSpace_of_printable (c : Char) (cs : List Char) (h1 : 33 ≤ c.toNat)
    (h2 : c.toNat ≤ 126) : SkipSpace (c :: cs) = .ok (c :: cs) := by
  unfold SkipSpace
  rw [if_neg (by omega), if_neg (by omega), isSpace_of_printable c h1 h2]
  simp

theorem decimal_range (c : Char) (h : isDecimal c = true) : 48 ≤ c.toNat ∧ c.toNat ≤ 57 := by
  simpa [isDecimal] using h

theorem decimal_not_sign (c : Char) (h : isDecimal c = true) : c ≠ '+' ∧ c ≠ '-' := by
  constructor <;> (rintro rfl; revert h; decide)

theorem takeWhile_run {p : Char → Bool} (xs rest : List Char) (hxs : ∀ c ∈ xs, p c = true)
    (hrest : ∀ c, rest.head? = some c → p c = false) :
    (xs ++ rest).takeWhile p = xs ∧ (xs ++ rest).dropWhile p = rest := by
  induction xs with
  | nil =>
    cases rest with
    | nil => simp
    | cons c cs => simp [List.takeWhile, List.dropWhile, hrest c rfl]
  | cons x xs ih =>
    have hx := hxs x (List.mem_cons_self _ _)
    have := ih (fun c hc => hxs c (List.mem_cons_of_mem _ hc))
    simp [List.takeWhile, List.dropWhile, hx, this.1, this.2]

theorem scanInt_toDigits (n : Nat) (hn : n < 2 ^ 63) (rest : List Char)
    (hrest : ∀ c, rest.head? = some c → isDecimal c = false) :
    scanInt (Nat.toDigits 10 n ++ rest) = .ok ((n : Int), rest) := by
  have hdec := toDigits_decimal n
  have hne := toDigits_ne_nil n
  have hp := ParseUint_toDigits n (by omega)
  have hrun := takeWhile_run (Nat.toDigits 10 n) rest
    hdec hrest
  revert hdec hne hp hrun
  generalize Nat.toDigits 10 n = ds
  intro hdec hne hp hrun
  cases ds with
  | nil => exact absurd rfl hne
  | cons d ds =>
    have hd := hdec d (List.mem_cons_self _ _)
    have hr := decimal_range d hd
    have hs := decimal_not_sign d hd
    have hsign : isSign d = false := by simp [isSign, hs.1, hs.2]
    have hn2 : ¬ (9223372036854775808 ≤ n) := by omega
    rw [List.cons_append] at hrun ⊢
    simp only [scanInt, SkipSpace_of_printable d _ (by omega) (by omega), hsign,
      hd, hrun.1, hrun.2, ParseInt, hs.1, hs.2, hp]
    simp [hn2, hd, hrun.1, hrun.2, hs.1, hs.2, hp]

theorem scanInt_minus_toDigits (n : Nat) (hn : n ≤ 2 ^ 63) (rest : List Char)
    (hrest : ∀ c, rest.head? = some c → isDecimal c = false) :
    scanInt ('-' :: (Nat.toDigits 10 n ++ rest)) = .ok (-(n : Int), rest) := by
  have hdec := toDigits_decimal n
  have hne := toDigits_ne_nil n
  have hp := ParseUint_toDigits n (by omega)
  have hrun := takeWhile_run (Nat.toDigits 10 n) rest
    hdec hrest
  revert hdec hne hp hrun
  generalize Nat.toDigits 10 n = ds
  intro hdec hne hp hrun
  cases ds with
  | nil => exact absurd rfl hne
  | cons d ds =>
    have hd := hdec d (List.mem_cons_self _ _)
    have hn2 : ¬ (9223372036854775808 < n) := by omega
    have hminus : isSign '-' = true := by decide
    rw [List.cons_append] at hrun ⊢
    simp only [scanInt, SkipSpace_of_printable '-' _ (by decide) (by decide), hminus,
      hd, hrun.1, hrun.2, ParseInt, hp]
    simp [hn2, hd, hrun.1, hrun.2, hp]

/-- Reading back what `Sprintf` wrote, whatever follows it, as long as the next byte
cannot continue a number. -/
theorem scanInt_Sprintf (v : Int) (hv : inRange v) (rest : List Char)
    (hrest : ∀ c, rest.head? = some c → isDecimal c = false) :
    scanInt ((Sprintf v).data ++ rest) = .ok (v, rest) := by
  unfold inRange at hv
  unfold Sprintf
  by_cases h : v < 0
  · rw [if_pos h]
    have := scanInt_minus_toDigits v.natAbs (by omega) rest hrest
    have e : -(v.natAbs : Int) = v := by omega
    rw [e] at this
    simpa using this
  · rw [if_neg h]
    have := scanInt_toDigits v.toNat (by omega) rest hrest
    have e : (v.toNat : Int) = v := by omega
    rw [e] at this
    simpa using this

theorem dropWhile_never (l : List Char) : l.dropWhile (fun _ => false) = l := by
  cases l <;> simp [List.dropWhile]

theorem Trim_empty (s : String) : Trim s "" = s := by
  simp [Trim, dropWhile_never]

theorem detectVersion_Sprintf_append (v : Int) (hv : inRange v) (rest : List Char)
    (hrest : ∀ c, rest.head? = some c → isDecimal c = false) :
    detectVersion (.content ⟨(Sprintf v).data ++ rest⟩) = .ok v := by
  simp [detectVersion, Trim_empty, Sscanf, scanInt_Sprintf v hv rest hrest]

theorem detectVersion_Sprintf (v : Int) (hv : inRange v) :
    detectVersion (.content (Sprintf v)) = .ok v := by
  have := detectVersion_Sprintf_append v hv [] (by simp)
  simpa using this

/-! ## The sequencing loops -/

theorem upgradeLoop_eq (w : World) (t c : Int) (vs : List Int) (file : FileState) :
    upgradeLoop w t c vs file =
      stepLoop w (fun v => decide (v > c ∧ t ≠ fullUpdate)) (fun v => decide (c ≥ v)) .up
        vs file := by
  induction vs generalizing file with
  | nil => rfl
  | cons v rest ih => simp only [upgradeLoop, stepLoop, ih, decide_eq_true_eq]

theorem downgradeLoop_eq (w : World) (t c : Int) (vs : List Int) (file : FileState) :
    downgradeLoop w t c vs file =
      stepLoop w (fun v => decide (v < t ∧ t ≠ fullUpdate)) (fun v => decide (c ≤ v)) .down
        vs file := by
  induction vs generalizing file with
  | nil => rfl
  | cons v rest ih => simp only [downgradeLoop, stepLoop, ih, decide_eq_true_eq]

theorem runMigration_eq (w : World) (v : Int) (action : Action) :
    runMigration w v action =
      if succeeds w action v = true then .returned true else .panicked := by
  unfold runMigration succeeds
  cases h : w.launch v action with
  | cannotStart => simp [Launch.err]
  | exited s =>
    cases s with
    | zero => simp [Launch.err, Launch.ExitCode]
    | succ k => simp [Launch.err]

theorem fileAfter_cons (file : FileState) (v : Int) (l : List Int) :
    fileAfter file (v :: l) = fileAfter (.content (Sprintf v)) l := by
  unfold fileAfter
  rw [List.getLast?_cons]
  cases l.getLast? <;> rfl

theorem stepLoop_spec (w : World) (brk skip : Int → Bool) (a : Action)
    (hw : ∀ data, w.write data = .done) (vs : List Int) : ∀ file : FileState,
    invoked (stepLoop w brk skip a vs file).events =
        ((reached brk skip vs).takeWhile (succeeds w a) ++
          ((reached brk skip vs).dropWhile (succeeds w a)).take 1).map (fun v => (v, a)) ∧
      written (stepLoop w brk skip a vs file).events =
        ((reached brk skip vs).takeWhile (succeeds w a)).map Sprintf ∧
      (stepLoop w brk skip a vs file).versionFile =
        fileAfter file ((reached brk skip vs).takeWhile (succeeds w a)) ∧
      ((stepLoop w brk skip a vs file).exit = none ↔
        ∀ v ∈ reached brk skip vs, succeeds w a v = true) ∧
      ((stepLoop w brk skip a vs file).exit = none ∨
        (stepLoop w brk skip a vs file).exit = some .panicked) := by
  induction vs with
  | nil => intro file; simp [stepLoop, reached, invoked, written, fileAfter]
  | cons v rest ih =>
    intro file
    by_cases hb : brk v = true
    · simp [stepLoop, reached, hb, invoked, written, fileAfter]
    · by_cases hs : skip v = true
      · have := ih file
        simpa [stepLoop, reached, hb, hs] using this
      · by_cases hok : succeeds w a v = true
        · have := ih (.content (Sprintf v))
          simp only [reached] at this
          simp [stepLoop, reached, hb, hs, runMigration_eq, hok, hw, invoked, written,
            fileAfter_cons, this]
          rcases this.2.2.2.2 with h | h
          · left
            have h2 := this.2.2.2.1.1 h
            simpa using h2
          · right
            exact h
        · simp [stepLoop, reached, hb, hs, runMigration_eq, hok, invoked, written,
            fileAfter]

theorem ParseInt_inRange (s : List Char) (i : Int) (h : ParseInt s = .ok i) : inRange i := by
  unfold ParseInt at h
  cases s with
  | nil => simp at h
  | cons c cs =>
    simp only at h
    split at h
    · simp at h
    · next un hun =>
      split at h
      · simp at h
      · next h1 =>
        split at h
        · simp at h
        · next h2 =>
          simp only [Except.ok.injEq] at h
          unfold inRange
          by_cases hneg : c = '-'
          · simp only [hneg, if_true] at h
            simp only [hneg, true_and] at h2
            omega
          · simp only [hneg, if_false] at h
            simp only [hneg, not_false_eq_true, true_and] at h1
            omega

theorem scanInt_inRange (s : List Char) (i : Int) (r : List Char)
    (h : scanInt s = .ok (i, r)) : inRange i := by
  unfold scanInt at h
  split at h
  · simp at h
  · simp at h
  · next c cs hsk =>
    simp only at h
    split at h
    · simp at h
    · next d ds hd =>
      split at h
      · simp at h
      · split at h
        · simp at h
        · next j hj =>
          simp only [Except.ok.injEq, Prod.mk.injEq] at h
          rw [← h.1]
          exact ParseInt_inRange _ _ hj

theorem Sscanf_inRange (s : String) (p : Nat) (v : Int) (h : Sscanf s = (p, none, v)) :
    inRange v := by
  unfold Sscanf at h
  split at h
  · simp at h
  · next i r hi =>
    simp only [Prod.mk.injEq, true_and] at h
    rw [← h.2]
    exact scanInt_inRange _ _ _ hi

theorem listMigrationsLoop_inRange (files : List MigrationFile) :
    ∀ (acc cat : List Int), (∀ v ∈ acc, inRange v) →
      listMigrationsLoop files acc = .ok cat → ∀ v ∈ cat, inRange v := by
  induction files with
  | nil =>
    intro acc cat hacc h
    simp only [listMigrationsLoop, Except.ok.injEq] at h
    rw [← h]; exact hacc
  | cons f fs ih =>
    intro acc cat hacc h
    simp only [listMigrationsLoop] at h
    split at h
    · simp at h
    · split at h
      · simp at h
      · next p v hv =>
        refine ih (acc ++ [v]) cat ?_ h
        intro u hu
        rcases List.mem_append.1 hu with hu | hu
        · exact hacc u hu
        · rw [List.mem_singleton.1 hu]
          exact Sscanf_inRange _ _ _ hv

theorem listMigrations_inRange (dir : Option (List MigrationFile)) (cat : List Int)
    (h : listMigrations dir = .ok cat) : ∀ v ∈ cat, inRange v := by
  unfold listMigrations at h
  cases dir with
  | none => simp at h
  | some files => exact listMigrationsLoop_inRange files [] cat (by simp) h

theorem sorted_getLast (l : List Int) (m : Int) (hs : l.Sorted (fun a b => a < b))
    (hm : m ∈ l) (hmax : ∀ v ∈ l, v ≤ m) : l.getLast? = some m := by
  induction l with
  | nil => simp at hm
  | cons x xs ih =>
    rw [List.getLast?_cons]
    have hs2 := List.sorted_cons.1 hs
    cases xs with
    | nil =>
      simp only [List.mem_singleton] at hm
      simp [hm]
    | cons y ys =>
      have hmem : m ∈ y :: ys := by
        rcases List.mem_cons.1 hm with h | h
        · exfalso
          have h1 := hs2.1 y (List.mem_cons_self _ _)
          have h2 := hmax y (List.mem_cons_of_mem _ (List.mem_cons_self _ _))
          omega
        · exact h
      have := ih hs2.2 hmem (fun v hv => hmax v (List.mem_cons_of_mem _ hv))
      rw [this]; rfl

theorem sortInts_strict (cat : List Int) (hnd : cat.Nodup) :
    (sortInts cat).Sorted (fun a b => a < b) := by
  have h1 : (sortInts cat).Sorted (fun a b => a ≤ b) :=
    List.sorted_insertionSort (fun a b : Int => a ≤ b) cat
  have h2 : (sortInts cat).Nodup :=
    (List.perm_insertionSort (fun a b : Int => a ≤ b) cat).nodup_iff.2 hnd
  exact h1.lt_of_le h2

theorem sortReverse_strict (cat : List Int) (hnd : cat.Nodup) :
    (sortReverse cat).Sorted (fun a b => a > b) := by
  have h1 : (sortReverse cat).Sorted (fun a b => a ≥ b) :=
    List.sorted_insertionSort (fun a b : Int => a ≥ b) cat
  have h2 : (sortReverse cat).Nodup :=
    (List.perm_insertionSort (fun a b : Int => a ≥ b) cat).nodup_iff.2 hnd
  exact h1.gt_of_ge h2

theorem mem_sortInts (cat : List Int) (v : Int) : v ∈ sortInts cat ↔ v ∈ cat :=
  List.mem_insertionSort (fun a b : Int => a ≤ b)

theorem mem_sortReverse (cat : List Int) (v : Int) : v ∈ sortReverse cat ↔ v ∈ cat :=
  List.mem_insertionSort (fun a b : Int => a ≥ b)

theorem takeWhile_always (l : List Int) (p : Int → Bool) (h : ∀ v, p v = true) :
    l.takeWhile p = l := by
  induction l with
  | nil => rfl
  | cons x xs ih => simp [List.takeWhile, h x, ih]

theorem reached_full_up (c : Int) (vs : List Int) :
    reached (fun v => decide (v > c ∧ fullUpdate ≠ fullUpdate)) (fun v => decide (c ≥ v)) vs =
      vs.filter (fun v => decide (c < v)) := by
  unfold reached
  rw [takeWhile_always _ _ (by intro v; simp)]
  congr 1
  funext v
  by_cases h : c < v
  · have h2 : ¬ (v ≤ c) := by omega
    simp [h, h2]
  · have h2 : v ≤ c := by omega
    simp [h, h2]

theorem reached_full_down (c : Int) (vs : List Int) :
    reached (fun v => decide (v < fullUpdate ∧ fullUpdate ≠ fullUpdate))
        (fun v => decide (c ≤ v)) vs =
      vs.filter (fun v => decide (v < c)) := by
  unfold reached
  rw [takeWhile_always _ _ (by intro v; simp)]
  congr 1
  funext v
  by_cases h : v < c
  · have h2 : ¬ (c ≤ v) := by omega
    simp [h, h2]
  · have h2 : c ≤ v := by omega
    simp [h, h2]

theorem upgrade_full_unfold (w : World) (cat : List Int) (c : Int)
    (hcat : listMigrations w.migrationsDirectory = .ok cat)
    (hc : detectVersion w.versionFile = .ok c) :
    upgrade w fullUpdate =
      ⟨(stepLoop w (fun v => decide (v > c ∧ fullUpdate ≠ fullUpdate))
          (fun v => decide (c ≥ v)) .up (sortInts cat) w.versionFile).exit.getD .returned,
        (stepLoop w (fun v => decide (v > c ∧ fullUpdate ≠ fullUpdate))
          (fun v => decide (c ≥ v)) .up (sortInts cat) w.versionFile).versionFile,
        .listed :: (stepLoop w (fun v => decide (v > c ∧ fullUpdate ≠ fullUpdate))
          (fun v => decide (c ≥ v)) .up (sortInts cat) w.versionFile).events⟩ := by
  unfold upgrade
  rw [hc]
  simp only [ne_eq, not_true_eq_false, and_false, if_false]
  rw [hcat]
  simp only [upgradeLoop_eq, ne_eq, not_true_eq_false, and_false]

theorem downgrade_unfold (w : World) (t c : Int) (cat : List Int)
    (hc : detectVersion w.versionFile = .ok c) (ht : ¬ t > c)
    (hcat : listMigrations w.migrationsDirectory = .ok cat) :
    downgrade w t =
      afterLoop w (stepLoop w (fun v => decide (v < t ∧ t ≠ fullUpdate))
        (fun v => decide (c ≤ v)) .down (sortReverse cat) w.versionFile) := by
  unfold downgrade afterLoop
  rw [hc]
  simp only [ht, if_false]
  rw [hcat]
  simp only [downgradeLoop_eq]

theorem downgrade_shape (w : World) (t : Int) :
    (downgrade w t).events = [] ∨ (downgrade w t).events = [.listed] ∨
      ∃ (c : Int) (cat : List Int), detectVersion w.versionFile = .ok c ∧ ¬ t > c ∧
        listMigrations w.migrationsDirectory = .ok cat ∧
        downgrade w t =
          afterLoop w (stepLoop w (fun v => decide (v < t ∧ t ≠ fullUpdate))
            (fun v => decide (c ≤ v)) .down (sortReverse cat) w.versionFile) := by
  cases hc : detectVersion w.versionFile with
  | error e => left; simp [downgrade, hc]
  | ok c =>
    by_cases ht : t > c
    · left; simp [downgrade, hc, ht]
    · cases hcat : listMigrations w.migrationsDirectory with
      | error e => right; left; simp [downgrade, hc, ht, hcat]
      | ok cat => right; right; exact ⟨c, cat, rfl, ht, rfl, downgrade_unfold w t c cat hc ht hcat⟩

theorem invoked_append (a b : List Event) : invoked (a ++ b) = invoked a ++ invoked b := by
  induction a with
  | nil => rfl
  | cons e es ih => cases e <;> simp [invoked, ih]

theorem written_append (a b : List Event) : written (a ++ b) = written a ++ written b := by
  induction a with
  | nil => rfl
  | cons e es ih => cases e <;> simp [written, ih]

theorem recorded_nil (w : World) (a : Action) : Recorded w a [] := by
  intro pre post v h
  simp at h

theorem recorded_failed (w : World) (a : Action) (v : Int)
    (hv : ¬ succeeds w a v = true) : Recorded w a [.ran v a] := by
  intro pre post u h hu
  cases pre with
  | nil =>
    simp only [List.nil_append, List.cons.injEq, Event.ran.injEq] at h
    exact absurd (h.1.1 ▸ hu) hv
  | cons e pre =>
    simp only [List.cons_append, List.cons.injEq] at h
    have := h.2
    simp at this

theorem recorded_step (w : World) (a : Action) (v : Int) (evs : List Event)
    (h : Recorded w a evs) : Recorded w a (.ran v a :: .wrote (Sprintf v) :: evs) := by
  intro pre post u hsplit hu
  cases pre with
  | nil =>
    simp only [List.nil_append, List.cons.injEq, Event.ran.injEq] at hsplit
    exact ⟨evs, by rw [← hsplit.2, hsplit.1.1]⟩
  | cons e pre =>
    simp only [List.cons_append, List.cons.injEq] at hsplit
    cases pre with
    | nil =>
      have := hsplit.2
      simp at this
    | cons e2 pre =>
      have h2 := hsplit.2
      simp only [List.cons_append, List.cons.injEq] at h2
      exact h pre post u h2.2 hu

theorem recorded_listed (w : World) (a : Action) (evs : List Event)
    (h : Recorded w a evs) : Recorded w a (.listed :: evs) := by
  intro pre post u hsplit hu
  cases pre with
  | nil => simp at hsplit
  | cons e pre =>
    simp only [List.cons_append, List.cons.injEq] at hsplit
    exact h pre post u hsplit.2 hu

theorem recorded_then (w : World) (a : Action) (evs : List Event) (e : Event)
    (he : ∀ v b, e ≠ .ran v b) (h : Recorded w a evs) : Recorded w a (evs ++ [e]) := by
  intro pre post u hsplit hu
  rcases List.eq_nil_or_concat post with hp | ⟨p, x, hp⟩
  · subst hp
    have h2 : evs ++ [e] = pre ++ [Event.ran u a] := hsplit
    have h3 := (List.append_inj' h2 rfl).2
    simp only [List.cons.injEq, and_true] at h3
    exact absurd h3 (he u a)
  · subst hp
    have h2 : evs ++ [e] = (pre ++ Event.ran u a :: p) ++ [x] := by
      rw [hsplit]; simp
    have h3 := List.append_inj' h2 rfl
    obtain ⟨tail, htail⟩ := h pre p u h3.1 hu
    exact ⟨tail ++ [x], by rw [htail]; simp⟩

theorem stepLoop_recorded (w : World) (brk skip : Int → Bool) (a : Action)
    (vs : List Int) : ∀ file : FileState,
    Recorded w a (stepLoop w brk skip a vs file).events := by
  induction vs with
  | nil => intro file; exact recorded_nil w a
  | cons v rest ih =>
    intro file
    by_cases hb : brk v = true
    · simpa [stepLoop, hb] using recorded_nil w a
    · by_cases hs : skip v = true
      · simpa [stepLoop, hb, hs] using ih file
      · by_cases hok : succeeds w a v = true
        · cases hwr : w.write (Sprintf v) with
          | done =>
            simpa [stepLoop, hb, hs, runMigration_eq, hok, hwr] using
              recorded_step w a v _ (ih (.content (Sprintf v)))
          | failed left err =>
            simpa [stepLoop, hb, hs, runMigration_eq, hok, hwr] using
              recorded_step w a v [] (recorded_nil w a)
        · simpa [stepLoop, hb, hs, runMigration_eq, hok] using recorded_failed w a v hok

theorem afterLoop_recorded (w : World) (r : Loop) (h : Recorded w .down r.events) :
    Recorded w .down (afterLoop w r).events := by
  unfold afterLoop
  cases r.exit with
  | some st => exact recorded_listed _ _ _ h
  | none =>
    cases w.write "0" with
    | done => exact recorded_listed _ _ _ (recorded_then _ _ _ _ (by simp) h)
    | failed left err =>
      have h3 : r.events ++ [Event.wrote "0", .printed msgSaveFailed, .printed (err ++ "\n")] =
          ((r.events ++ [Event.wrote "0"]) ++ [.printed msgSaveFailed]) ++
            [.printed (err ++ "\n")] := by simp
      show Recorded w .down (.listed :: (r.events ++
        [Event.wrote "0", .printed msgSaveFailed, .printed (err ++ "\n")]))
      rw [h3]
      exact recorded_listed _ _ _ (recorded_then _ _ _ _ (by simp)
        (recorded_then _ _ _ _ (by simp) (recorded_then _ _ _ _ (by simp) h)))

theorem downgrade_recorded (w : World) (t : Int) : Recorded w .down (downgrade w t).events := by
  rcases downgrade_shape w t with h | h | ⟨c, cat, _, _, _, h⟩
  · rw [h]; exact recorded_nil _ _
  · rw [h]; exact recorded_listed _ _ _ (recorded_nil _ _)
  · rw [h]; exact afterLoop_recorded _ _ (stepLoop_recorded _ _ _ _ _ _)

theorem isSpace_newline (c : Char) (h : c.toNat = 10 ∨ c.toNat = 13) : isSpace c = true := by
  unfold isSpace
  rw [if_neg (by omega)]
  simp only [inRanges, space]
  rw [if_neg (by omega), if_pos (by omega)]

theorem detectVersion_fails_without_integer (data : String)
    (h : ∀ c, data.data.head? = some c →
      isSpace c = false ∧ isSign c = false ∧ isDecimal c = false) :
    ∃ e, detectVersion (.content data) = .error e := by
  obtain ⟨l⟩ := data
  cases l with
  | nil => exact ⟨.scan .eof, by simp [detectVersion, Trim_empty, Sscanf, scanInt, SkipSpace]⟩
  | cons c cs =>
    obtain ⟨h1, h2, h3⟩ := h c rfl
    have h10 : ¬ c.toNat = 10 := fun hc => by
      rw [isSpace_newline c (Or.inl hc)] at h1; exact absurd h1 (by decide)
    have h13 : ¬ c.toNat = 13 := fun hc => by
      rw [isSpace_newline c (Or.inr hc)] at h1; exact absurd h1 (by decide)
    refine ⟨.scan .expectedInteger, ?_⟩
    simp [detectVersion, Trim_empty, Sscanf, scanInt, SkipSpace, h1, h2, h3, h10, h13]

theorem detectVersion_error_of_existing (file : FileState) (e : Error)
    (hfile : file ≠ .absent) (h : detectVersion file = .error e) :
    e ≠ .ErrCannotRetrieveCurrentVersion := by
  cases file with
  | absent => exact absurd rfl hfile
  | unreadable =>
    simp only [detectVersion, Except.error.injEq] at h
    rw [← h]; simp
  | content data =>
    unfold detectVersion at h
    simp only at h
    split at h
    · simp only [Except.error.injEq] at h
      rw [← h]; simp
    · split at h
      · simp only [Except.error.injEq] at h
        rw [← h]; simp
      · simp at h

/-! ## Scope of the two sequencing defects -/

theorem upgradeLoop_concrete_target (w : World) (t c : Int) (ht : t ≠ fullUpdate)
    (vs : List Int) (file : FileState) :
    upgradeLoop w t c vs file = ⟨none, file, []⟩ := by
  induction vs with
  | nil => rfl
  | cons v rest ih =>
    by_cases h : v > c
    · simp [upgradeLoop, h, ht]
    · have h2 : c ≥ v := by omega
      simp [upgradeLoop, h, h2, ih]

/-- With any concrete target, `upgrade` invokes no unit and leaves the version file as
it found it. -/
theorem targeted_upgrade_never_invokes (w : World) (t : Int) (ht : t ≠ fullUpdate) :
    invoked (upgrade w t).events = [] ∧ written (upgrade w t).events = [] ∧
      (upgrade w t).versionFile = w.versionFile := by
  unfold upgrade
  cases detectVersion w.versionFile with
  | error e => simp [invoked, written]
  | ok c =>
    by_cases h : t < c
    · simp [h, ht, invoked, written]
    · cases listMigrations w.migrationsDirectory with
      | error e => simp [h, invoked, written]
      | ok cat => simp [h, upgradeLoop_concrete_target w t c ht, invoked, written]

/-- Whatever the target, a downgrade in which every unit and every write succeed ends
with the version file holding `0`. -/
theorem downgrade_completes_at_zero (w : World) (t c : Int) (cat : List Int)
    (hc : detectVersion w.versionFile = .ok c) (ht : ¬ t > c)
    (hcat : listMigrations w.migrationsDirectory = .ok cat)
    (hok : ∀ v, succeeds w .down v = true) (hwrite : ∀ data, w.write data = .done) :
    (downgrade w t).status = .returned ∧ (downgrade w t).versionFile = .content "0" := by
  have hspec := stepLoop_spec w (fun v => decide (v < t ∧ t ≠ fullUpdate))
    (fun v => decide (c ≤ v)) .down hwrite (sortReverse cat) w.versionFile
  have hexit := hspec.2.2.2.1.2 (fun v _ => hok v)
  rw [downgrade_unfold w t c cat hc ht hcat]
  unfold afterLoop
  rw [hexit, hwrite]
  exact ⟨rfl, rfl⟩

/-! ## The claims -/

/-- C2 (as amended): full upgrade with partial failure. Let `pending` be the catalog
versions greater than the current version `c`, ascending. When every marker write
succeeds, a full upgrade invokes `up` on the units of `pending` that succeed up to the
first one that does not, invokes that one and nothing after it, and ends with the
version file holding the last version whose migration succeeded (unchanged, still
reading `c`, if none did); when all of them succeed and the catalog has a version above
`c`, the file ends at the catalog's maximum. -/
theorem full_upgrade_stops_at_first_failure (w : World) (cat : List Int) (c : Int)
    (hcat : listMigrations w.migrationsDirectory = .ok cat) (hnd : cat.Nodup)
    (hc : detectVersion w.versionFile = .ok c)
    (hwrite : ∀ data, w.write data = .done) :
    ∃ pending : List Int,
      pending.Sorted (fun a b => a < b) ∧ (∀ v, v ∈ pending ↔ v ∈ cat ∧ c < v) ∧
      invoked (upgrade w fullUpdate).events =
        (pending.takeWhile (succeeds w .up) ++
          (pending.dropWhile (succeeds w .up)).take 1).map (fun v => (v, Action.up)) ∧
      written (upgrade w fullUpdate).events =
        (pending.takeWhile (succeeds w .up)).map Sprintf ∧
      (upgrade w fullUpdate).versionFile =
        fileAfter w.versionFile (pending.takeWhile (succeeds w .up)) ∧
      detectVersion (upgrade w fullUpdate).versionFile =
        .ok ((pending.takeWhile (succeeds w .up)).getLast?.getD c) ∧
      ((∀ v ∈ pending, succeeds w .up v = true) → ∀ m ∈ cat, (∀ v ∈ cat, v ≤ m) → c < m →
        (upgrade w fullUpdate).versionFile = .content (Sprintf m) ∧
        detectVersion (upgrade w fullUpdate).versionFile = .ok m) := by
  have hspec := stepLoop_spec w (fun v => decide (v > c ∧ fullUpdate ≠ fullUpdate))
    (fun v => decide (c ≥ v)) .up hwrite (sortInts cat) w.versionFile
  rw [reached_full_up] at hspec
  have hun := upgrade_full_unfold w cat c hcat hc
  have hrange := listMigrations_inRange _ _ hcat
  have hsorted : ((sortInts cat).filter (fun v => decide (c < v))).Sorted (fun a b => a < b) :=
    (sortInts_strict cat hnd).filter _
  have hmem : ∀ v, v ∈ (sortInts cat).filter (fun v => decide (c < v)) ↔ v ∈ cat ∧ c < v := by
    intro v
    simp [List.mem_filter, mem_sortInts]
  have hfile : (upgrade w fullUpdate).versionFile =
      fileAfter w.versionFile
        (((sortInts cat).filter (fun v => decide (c < v))).takeWhile (succeeds w .up)) := by
    rw [hun]; exact hspec.2.2.1
  have hread : detectVersion (upgrade w fullUpdate).versionFile =
      .ok ((((sortInts cat).filter (fun v => decide (c < v))).takeWhile
        (succeeds w .up)).getLast?.getD c) := by
    rw [hfile]
    unfold fileAfter
    cases hl : (((sortInts cat).filter (fun v => decide (c < v))).takeWhile
        (succeeds w .up)).getLast? with
    | none => simpa using hc
    | some u =>
      have hu : u ∈ ((sortInts cat).filter (fun v => decide (c < v))).takeWhile
          (succeeds w .up) := List.mem_of_getLast?_eq_some hl
      have hu2 := (hmem u).1 ((List.takeWhile_sublist _).subset hu)
      simpa using detectVersion_Sprintf u (hrange u hu2.1)
  refine ⟨(sortInts cat).filter (fun v => decide (c < v)), hsorted, hmem, ?_, ?_, hfile,
    hread, ?_⟩
  · rw [hun]; simpa [invoked] using hspec.1
  · rw [hun]; simpa [written] using hspec.2.1
  · intro hall m hm hmax hcm
    have htw : ((sortInts cat).filter (fun v => decide (c < v))).takeWhile (succeeds w .up) =
        (sortInts cat).filter (fun v => decide (c < v)) :=
      List.takeWhile_eq_self_iff.2 hall
    have hlast : ((sortInts cat).filter (fun v => decide (c < v))).getLast? = some m :=
      sorted_getLast _ m hsorted ((hmem m).2 ⟨hm, hcm⟩)
        (fun v hv => hmax v ((hmem v).1 hv).1)
    constructor
    · rw [hfile, htw]; unfold fileAfter; rw [hlast]
    · rw [hread, htw, hlast]; rfl

/-- C3 (as amended): full downgrade. For a catalog of distinct positive versions and a
current version `c` of the catalog, when every invoked migration and every marker write
succeeds, a downgrade without explicit target invokes `down` on exactly the catalog
versions strictly below `c` (not on `c` itself), in descending order, records each of
them and finally `0`, and returns with the version file holding `0`. -/
theorem full_downgrade_runs_below_current (w : World) (cat : List Int) (c : Int)
    (hcat : listMigrations w.migrationsDirectory = .ok cat) (hnd : cat.Nodup)
    (hpos : ∀ v ∈ cat, 0 < v) (hc : detectVersion w.versionFile = .ok c) (hmem : c ∈ cat)
    (hok : ∀ v ∈ cat, v < c → succeeds w .down v = true)
    (hwrite : ∀ data, w.write data = .done) :
    ∃ undone : List Int,
      undone.Sorted (fun a b => a > b) ∧ (∀ v, v ∈ undone ↔ v ∈ cat ∧ v < c) ∧
      invoked (downgrade w fullUpdate).events = undone.map (fun v => (v, Action.down)) ∧
      written (downgrade w fullUpdate).events = undone.map Sprintf ++ ["0"] ∧
      (downgrade w fullUpdate).versionFile = .content "0" ∧
      detectVersion (downgrade w fullUpdate).versionFile = .ok 0 ∧
      (downgrade w fullUpdate).status = .returned := by
  have hcpos := hpos c hmem
  have ht : ¬ fullUpdate > c := by unfold fullUpdate; omega
  have hun := downgrade_unfold w fullUpdate c cat hc ht hcat
  have hspec := stepLoop_spec w (fun v => decide (v < fullUpdate ∧ fullUpdate ≠ fullUpdate))
    (fun v => decide (c ≤ v)) .down hwrite (sortReverse cat) w.versionFile
  rw [reached_full_down] at hspec
  have hsorted : ((sortReverse cat).filter (fun v => decide (v < c))).Sorted
      (fun a b => a > b) := (sortReverse_strict cat hnd).filter _
  have hmem2 : ∀ v, v ∈ (sortReverse cat).filter (fun v => decide (v < c)) ↔
      v ∈ cat ∧ v < c := by
    intro v
    simp [List.mem_filter, mem_sortReverse]
  have hall : ∀ v ∈ (sortReverse cat).filter (fun v => decide (v < c)),
      succeeds w .down v = true := fun v hv => hok v ((hmem2 v).1 hv).1 ((hmem2 v).1 hv).2
  have htw : ((sortReverse cat).filter (fun v => decide (v < c))).takeWhile
      (succeeds w .down) = (sortReverse cat).filter (fun v => decide (v < c)) :=
    List.takeWhile_eq_self_iff.2 hall
  have hdw : ((sortReverse cat).filter (fun v => decide (v < c))).dropWhile
      (succeeds w .down) = [] := List.dropWhile_eq_nil_iff.2 hall
  rw [htw, hdw] at hspec
  revert hun hspec
  generalize stepLoop w (fun v => decide (v < fullUpdate ∧ fullUpdate ≠ fullUpdate))
    (fun v => decide (c ≤ v)) .down (sortReverse cat) w.versionFile = r
  intro hun hspec
  have hexit := hspec.2.2.2.1.2 hall
  have hres : downgrade w fullUpdate =
      ⟨.returned, .content "0", .listed :: (r.events ++ [.wrote "0"])⟩ := by
    rw [hun]; unfold afterLoop; rw [hexit, hwrite]
  refine ⟨(sortReverse cat).filter (fun v => decide (v < c)), hsorted, hmem2, ?_, ?_, ?_, ?_, ?_⟩
  · rw [hres]; simp [invoked, invoked_append, hspec.1]
  · rw [hres]; simp [written, written_append, hspec.2.1]
  · rw [hres]
  · rw [hres]
    show detectVersion (.content "0") = .ok 0
    decide
  · rw [hres]

/-- C6 (as amended): in any downgrade run, directly after the `down` of migration `v`
succeeds the value written to the version file is `v` itself (not the catalog version
below it); consequently, when every marker write succeeds and the last unit invoked in
the run fails, the file holds the last version whose `down` succeeded before it
(it is untouched if there is none). -/
theorem downgrade_records_version_just_run (w : World) (t : Int) (pre post : List Event)
    (v : Int) (hrun : (downgrade w t).events = pre ++ .ran v .down :: post)
    (hok : succeeds w .down v = true) :
    (∃ tail, post = .wrote (Sprintf v) :: tail) ∧
      ((∀ data, w.write data = .done) → ∀ (done : List Int) (u : Int),
        invoked (downgrade w t).events =
          done.map (fun x => (x, Action.down)) ++ [(u, Action.down)] →
        succeeds w .down u = false →
        (downgrade w t).versionFile = fileAfter w.versionFile done) := by
  refine ⟨downgrade_recorded w t pre post v hrun hok, ?_⟩
  intro hwrite done u hinv hfail
  rcases downgrade_shape w t with h | h | ⟨c, cat, hc, ht, hcat, h⟩
  · rw [h] at hinv; simp [invoked] at hinv
  · rw [h] at hinv; simp [invoked] at hinv
  · have hspec := stepLoop_spec w (fun v => decide (v < t ∧ t ≠ fullUpdate))
      (fun v => decide (c ≤ v)) .down hwrite (sortReverse cat) w.versionFile
    revert hspec h
    generalize stepLoop w (fun v => decide (v < t ∧ t ≠ fullUpdate))
      (fun v => decide (c ≤ v)) .down (sortReverse cat) w.versionFile = r
    generalize reached (fun v => decide (v < t ∧ t ≠ fullUpdate))
      (fun v => decide (c ≤ v)) (sortReverse cat) = cand
    intro h hspec
    have hinv2 : invoked (downgrade w t).events = invoked r.events := by
      rw [h]; unfold afterLoop
      cases r.exit with
      | some st => simp [invoked]
      | none => rw [hwrite]; simp [invoked, invoked_append]
    rw [hinv2, hspec.1] at hinv
    have hmap : (done.map (fun x => (x, Action.down)) ++ [(u, Action.down)]) =
        (done ++ [u]).map (fun x => (x, Action.down)) := by simp
    rw [hmap] at hinv
    have hinj : Function.Injective (fun x : Int => (x, Action.down)) := by
      intro x y hxy
      simpa using hxy
    have hlist := List.map_injective_iff.2 hinj hinv
    have hne : ¬ ∀ x ∈ cand, succeeds w .down x = true := by
      intro hall
      rw [List.takeWhile_eq_self_iff.2 hall, List.dropWhile_eq_nil_iff.2 hall] at hlist
      have hu : u ∈ cand := by
        have : u ∈ cand ++ List.take 1 ([] : List Int) := by rw [hlist]; simp
        simpa using this
      have := hall u hu
      rw [hfail] at this
      exact absurd this (by decide)
    have hdone : cand.takeWhile (succeeds w .down) = done := by
      cases hdw : cand.dropWhile (succeeds w .down) with
      | nil => exact absurd (List.dropWhile_eq_nil_iff.1 hdw) hne
      | cons x xs =>
        rw [hdw] at hlist
        have h2 : cand.takeWhile (succeeds w .down) ++ [x] = done ++ [u] := by
          simpa using hlist
        exact (List.append_inj' h2 rfl).1
    have hexit : r.exit ≠ none := fun he => hne (hspec.2.2.2.1.1 he)
    rw [h]; unfold afterLoop
    cases he : r.exit with
    | none => exact absurd he hexit
    | some st => simpa [hdone] using hspec.2.2.1

/-- C7: out-of-range targets are rejected before anything runs. Whatever the catalog,
when the version file reads `c` and `t` is a concrete target, `upgrade` with `t < c` and
`downgrade` with `t > c` end with exit status 1, with no catalog discovery, no unit
invoked and no write: the version file is untouched and still reads `c`. -/
theorem out_of_range_target_rejected (w : World) (c t : Int)
    (hc : detectVersion w.versionFile = .ok c) (ht : t ≠ fullUpdate) :
    (t < c → upgrade w t = ⟨.exited 1, w.versionFile, []⟩) ∧
      (t > c → downgrade w t = ⟨.exited 1, w.versionFile, []⟩) ∧
      (t < c → detectVersion (upgrade w t).versionFile = .ok c) ∧
      (t > c → detectVersion (downgrade w t).versionFile = .ok c) := by
  have hu : t < c → upgrade w t = ⟨.exited 1, w.versionFile, []⟩ := by
    intro h
    unfold upgrade
    rw [hc]
    simp only [h, ht, ne_eq, not_false_eq_true, and_self, if_true]
  have hd : t > c → downgrade w t = ⟨.exited 1, w.versionFile, []⟩ := by
    intro h
    unfold downgrade
    rw [hc]
    simp only [h, if_true]
  refine ⟨hu, hd, ?_, ?_⟩
  · intro h; rw [hu h]; exact hc
  · intro h; rw [hd h]; exact hc

/-- C8 (as amended): reading the version file. For a file that exists, `detectVersion`
returns `v` when the content is the decimal form of an integer `v` of the `int` range
(a non-negative `n` in particular), also when `v` is negative (`"-5"` reads as -5) and
also when any text that does not begin with a digit follows it (`"1 2"` and `"1_000"`
read as 1); when the content is empty or starts with a character that is neither blank,
sign nor digit (`"abc"`) it fails; and no failure on an existing file, readable or not,
is the error returned for an absent file, `ErrCannotRetrieveCurrentVersion`. -/
theorem detectVersion_reads_leading_integer (v : Int) (rest : List Char) (hv : inRange v)
    (hrest : ∀ c, rest.head? = some c → isDecimal c = false) :
    detectVersion (.content (Sprintf v)) = .ok v ∧
      detectVersion (.content ⟨(Sprintf v).data ++ rest⟩) = .ok v ∧
      (∀ data : String,
        (∀ c, data.data.head? = some c →
          isSpace c = false ∧ isSign c = false ∧ isDecimal c = false) →
        ∃ e, detectVersion (.content data) = .error e) ∧
      (∀ (file : FileState) (e : Error), file ≠ .absent → detectVersion file = .error e →
        e ≠ .ErrCannotRetrieveCurrentVersion) ∧
      detectVersion .absent = .error .ErrCannotRetrieveCurrentVersion :=
  ⟨detectVersion_Sprintf v hv, detectVersion_Sprintf_append v hv rest hrest,
    detectVersion_fails_without_integer, detectVersion_error_of_existing, rfl⟩

/-- C9 (as amended): initialisation. Whether or not a version file exists, and whatever
it holds, `init` writes `0` to it; when that write succeeds the file holds `0` afterwards
and the command reports success. There is no already-initialised condition. -/
theorem init_writes_zero (w : World) (flags : Flags) (hg : flags.generate = false)
    (hi : flags.init = true) (hwrite : w.write "0" = .done) :
    main w flags = ⟨.returned, .content "0", [.wrote "0", .printed msgInitialized]⟩ ∧
      detectVersion (main w flags).versionFile = .ok 0 := by
  have h : main w flags =
      ⟨.returned, .content "0", [.wrote "0", .printed msgInitialized]⟩ := by
    unfold main
    simp [hg, hi, hwrite]
  refine ⟨h, ?_⟩
  rw [h]
  show detectVersion (.content "0") = .ok 0
  decide

/-! ## Concrete runs -/

/-- C1: on catalog {10, 20, 30} with the version file at 0, `upgrade` with target 20
invokes no unit and leaves the file at 0: line 201 compares `v` with `currentVersion`
where its own log message speaks of the target, so the loop stops at 10. -/
theorem targeted_upgrade_applies_nothing :
    upgrade (calm (.content "0") [10, 20, 30]) 20 = ⟨.returned, .content "0", [.listed]⟩ ∧
      invoked (upgrade (calm (.content "0") [10, 20, 30]) 20).events = [] ∧
      detectVersion (upgrade (calm (.content "0") [10, 20, 30]) 20).versionFile = .ok 0 := by
  decide

/-- C2, as stated, fails: with catalog {10} and the version file at 20 a full upgrade in
which nothing fails leaves the file at 20, which is not the catalog's maximum 10; and
with catalog {10}, the file at 0 and a marker write that fails, migration 10 succeeds
but the file does not hold 10 afterwards. -/
theorem full_upgrade_marker_not_catalog_maximum :
    listMigrations (unitsOf [10]) = .ok [10] ∧
      upgrade (calm (.content "20") [10]) fullUpdate = ⟨.returned, .content "20", [.listed]⟩ ∧
      detectVersion (upgrade (calm (.content "20") [10]) fullUpdate).versionFile ≠ .ok 10 ∧
      upgrade ⟨.content "0", unitsOf [10], fun _ _ => .exited 0,
          fun _ => .failed (.content "") "no space left on device", true⟩ fullUpdate =
        ⟨.exited 1, .content "", [.listed, .ran 10 .up, .wrote "10"]⟩ := by
  decide

/-- Witness for C2: catalog {10, 20, 30}, version file at 10, migration 20 fails. -/
theorem full_upgrade_stops_at_first_failure_witness :
    ∃ pending : List Int,
      pending.Sorted (fun a b => a < b) ∧
      (∀ v, v ∈ pending ↔ v ∈ [10, 20, 30] ∧ (10 : Int) < v) ∧
      invoked (upgrade (failingAt (.content "10") [10, 20, 30] 20)
          fullUpdate).events =
        (pending.takeWhile (succeeds (failingAt (.content "10") [10, 20, 30] 20) .up) ++
          (pending.dropWhile (succeeds (failingAt (.content "10") [10, 20, 30] 20)
            .up)).take 1).map (fun v => (v, Action.up)) ∧
      written (upgrade (failingAt (.content "10") [10, 20, 30] 20)
          fullUpdate).events =
        (pending.takeWhile (succeeds (failingAt (.content "10") [10, 20, 30] 20)
            .up)).map Sprintf ∧
      (upgrade (failingAt (.content "10") [10, 20, 30] 20)
          fullUpdate).versionFile =
        fileAfter (.content "10")
          (pending.takeWhile (succeeds (failingAt (.content "10") [10, 20, 30] 20) .up)) ∧
      detectVersion (upgrade (failingAt (.content "10") [10, 20, 30] 20)
          fullUpdate).versionFile =
        .ok ((pending.takeWhile (succeeds (failingAt (.content "10") [10, 20, 30] 20)
          .up)).getLast?.getD 10) ∧
      ((∀ v ∈ pending, succeeds (failingAt (.content "10") [10, 20, 30] 20) .up v
            = true) →
        ∀ m ∈ [10, 20, 30], (∀ v ∈ [10, 20, 30], v ≤ m) → 10 < m →
        (upgrade (failingAt (.content "10") [10, 20, 30] 20)
          fullUpdate).versionFile = .content (Sprintf m) ∧
        detectVersion (upgrade (failingAt (.content "10") [10, 20, 30] 20)
          fullUpdate).versionFile = .ok m) :=
  full_upgrade_stops_at_first_failure
    (failingAt (.content "10") [10, 20, 30] 20)
    [10, 20, 30] 10 (by decide) (by decide) (by decide) (fun _ => rfl)

/-- Witness for C3: catalog {10, 20, 30}, version file at 20, everything succeeds. -/
theorem full_downgrade_runs_below_current_witness :
    ∃ undone : List Int,
      undone.Sorted (fun a b => a > b) ∧ (∀ v, v ∈ undone ↔ v ∈ [10, 20, 30] ∧ v < (20 : Int)) ∧
      invoked (downgrade (calm (.content "20") [10, 20, 30]) fullUpdate).events =
        undone.map (fun v => (v, Action.down)) ∧
      written (downgrade (calm (.content "20") [10, 20, 30]) fullUpdate).events =
        undone.map Sprintf ++ ["0"] ∧
      (downgrade (calm (.content "20") [10, 20, 30]) fullUpdate).versionFile = .content "0" ∧
      detectVersion (downgrade (calm (.content "20") [10, 20, 30]) fullUpdate).versionFile =
        .ok 0 ∧
      (downgrade (calm (.content "20") [10, 20, 30]) fullUpdate).status = .returned :=
  full_downgrade_runs_below_current (calm (.content "20") [10, 20, 30]) [10, 20, 30] 20
    (by decide) (by decide) (by decide) (by decide) (by decide) (fun _ _ _ => rfl)
    (fun _ => rfl)

/-- C3, as stated, fails: with the version file at 20 and catalog {10, 20, 30} a full
downgrade invokes `down` on 10 only, not on 20 and then 10. -/
theorem full_downgrade_skips_current :
    downgrade (calm (.content "20") [10, 20, 30]) fullUpdate =
        ⟨.returned, .content "0", [.listed, .ran 10 .down, .wrote "10", .wrote "0"]⟩ ∧
      invoked (downgrade (calm (.content "20") [10, 20, 30]) fullUpdate).events ≠
        [(20, .down), (10, .down)] := by
  decide

/-- C4: catalog {10, 20}, version file at 10. A full upgrade succeeds and leaves the
file at 20; the downgrade with target 10 that follows succeeds and leaves the file at 0,
not at 10: line 167 writes `0` after the loop whatever the target. -/
theorem round_trip_ends_at_zero :
    upgrade (calm (.content "10") [10, 20]) fullUpdate =
        ⟨.returned, .content "20", [.listed, .ran 20 .up, .wrote "20"]⟩ ∧
      downgrade (calm (upgrade (calm (.content "10") [10, 20]) fullUpdate).versionFile
          [10, 20]) 10 =
        ⟨.returned, .content "0", [.listed, .ran 10 .down, .wrote "10", .wrote "0"]⟩ ∧
      detectVersion (downgrade (calm (upgrade (calm (.content "10") [10, 20])
          fullUpdate).versionFile [10, 20]) 10).versionFile = .ok 0 := by
  decide

/-- C5: catalog {10, 20}, version file at 20. `upgrade` with target 20 does nothing, but
`downgrade` with target 20, while invoking no unit, writes `0`: the file ends at 0, not
at 20 (the write of line 167 again). -/
theorem downgrade_to_current_writes_zero :
    upgrade (calm (.content "20") [10, 20]) 20 = ⟨.returned, .content "20", [.listed]⟩ ∧
      downgrade (calm (.content "20") [10, 20]) 20 =
        ⟨.returned, .content "0", [.listed, .wrote "0"]⟩ ∧
      detectVersion (downgrade (calm (.content "20") [10, 20]) 20).versionFile = .ok 0 := by
  decide

/-- C6, as stated, fails: on catalog {10, 20, 30} with the version file at 30, the value
written right after the `down` of 20 is `20`, not the catalog version below it (`10`);
and when the `down` of 10 then fails the file is left at 20, a version whose `down` has
run. -/
theorem downgrade_writes_version_itself :
    (downgrade (calm (.content "30") [10, 20, 30]) fullUpdate).events =
        [.listed, .ran 20 .down, .wrote "20", .ran 10 .down, .wrote "10", .wrote "0"] ∧
      versionBelow [10, 20, 30] 20 = 10 ∧
      Sprintf 20 ≠ Sprintf (versionBelow [10, 20, 30] 20) ∧
      downgrade (failingAt (.content "30") [10, 20, 30] 10) fullUpdate =
        ⟨.panicked, .content "20", [.listed, .ran 20 .down, .wrote "20", .ran 10 .down]⟩ := by
  decide

/-- Witness for C6: catalog {10, 20, 30}, version file at 30, the `down` of 10 fails. -/
theorem downgrade_records_version_just_run_witness :
    (downgrade (failingAt (.content "30") [10, 20, 30] 10) fullUpdate).events =
        [.listed] ++ .ran 20 .down :: [.wrote "20", .ran 10 .down] ∧
      succeeds (failingAt (.content "30") [10, 20, 30] 10) .down 20 = true ∧
      ((∃ tail, [Event.wrote "20", Event.ran 10 .down] = .wrote (Sprintf 20) :: tail) ∧
        ((∀ data, (failingAt (.content "30") [10, 20, 30] 10).write data = .done) →
          ∀ (done : List Int) (u : Int),
            invoked (downgrade (failingAt (.content "30") [10, 20, 30] 10) fullUpdate).events =
              done.map (fun x => (x, Action.down)) ++ [(u, Action.down)] →
            succeeds (failingAt (.content "30") [10, 20, 30] 10) .down u = false →
            (downgrade (failingAt (.content "30") [10, 20, 30] 10) fullUpdate).versionFile =
              fileAfter (failingAt (.content "30") [10, 20, 30] 10).versionFile done)) :=
  ⟨by decide, by decide,
    downgrade_records_version_just_run (failingAt (.content "30") [10, 20, 30] 10) fullUpdate
      [.listed] [.wrote "20", .ran 10 .down] 20 (by decide) (by decide)⟩

/-- Witness for C7: `upgrade` with target 5 and `downgrade` with target 20 when the
version file is at 10. -/
theorem out_of_range_target_rejected_witness :
    detectVersion (calm (.content "10") [10, 20, 30]).versionFile = .ok 10 ∧
      upgrade (calm (.content "10") [10, 20, 30]) 5 = ⟨.exited 1, .content "10", []⟩ ∧
      downgrade (calm (.content "10") [10, 20, 30]) 20 = ⟨.exited 1, .content "10", []⟩ :=
  ⟨by decide,
    (out_of_range_target_rejected (calm (.content "10") [10, 20, 30]) 10 5 (by decide)
      (by decide)).1 (by decide),
    (out_of_range_target_rejected (calm (.content "10") [10, 20, 30]) 10 20 (by decide)
      (by decide)).2.1 (by decide)⟩

/-- C8, as stated, fails: `"1 2"`, `"1_000"` and `"-5"` are read (as 1, 1 and -5) instead
of being rejected, and `"abc"` and the empty file fail with the scanner's error, not
with `ErrCurrentVersionStateCorrupted`. -/
theorem detectVersion_accepts_and_misreports :
    detectVersion (.content "1 2") = .ok 1 ∧
      detectVersion (.content "1_000") = .ok 1 ∧
      detectVersion (.content "-5") = .ok (-5) ∧
      detectVersion (.content "abc") = .error (.scan .expectedInteger) ∧
      detectVersion (.content "") = .error (.scan .eof) ∧
      detectVersion (.content "abc") ≠ .error .ErrCurrentVersionStateCorrupted := by
  decide

/-- Witness for C8: the content `"-5_0 x"`, that is `-5` followed by `"_0 x"`. -/
theorem detectVersion_reads_leading_integer_witness :
    inRange (-5) ∧
      detectVersion (.content (Sprintf (-5))) = .ok (-5) ∧
      detectVersion (.content ⟨(Sprintf (-5)).data ++ ['_', '0', ' ', 'x']⟩) = .ok (-5) ∧
      (∀ data : String,
        (∀ c, data.data.head? = some c →
          isSpace c = false ∧ isSign c = false ∧ isDecimal c = false) →
        ∃ e, detectVersion (.content data) = .error e) ∧
      (∀ (file : FileState) (e : Error), file ≠ .absent → detectVersion file = .error e →
        e ≠ .ErrCannotRetrieveCurrentVersion) ∧
      detectVersion .absent = .error .ErrCannotRetrieveCurrentVersion :=
  ⟨by decide,
    detectVersion_reads_leading_integer (-5) ['_', '0', ' ', 'x'] (by decide)
      (by intro c h; simp only [List.head?_cons, Option.some.injEq] at h; rw [← h]; decide)⟩

/-- C9, as stated, fails: with the version file at 20, `init` succeeds and the file
holds 0 afterwards. -/
theorem init_clobbers_existing_marker :
    detectVersion (calm (.content "20") []).versionFile = .ok 20 ∧
      main (calm (.content "20") []) initFlags =
        ⟨.returned, .content "0", [.wrote "0", .printed msgInitialized]⟩ ∧
      detectVersion (main (calm (.content "20") []) initFlags).versionFile ≠ .ok 20 := by
  decide

/-- Witness for C9: `init` when no version file exists. -/
theorem init_writes_zero_witness :
    main (calm .absent []) initFlags =
        ⟨.returned, .content "0", [.wrote "0", .printed msgInitialized]⟩ ∧
      detectVersion (main (calm .absent []) initFlags).versionFile = .ok 0 :=
  init_writes_zero (calm .absent []) initFlags rfl rfl rfl

/-- C10: a unit that starts and ends with exit status 1 makes `runMigration` panic
instead of returning `false`, so a full upgrade over it ends in a panic and not in a
normal return. -/
theorem runMigration_panics_on_failure :
    (failingAt (.content "0") [10] 10).launch 10 .up = .exited 1 ∧
      runMigration (failingAt (.content "0") [10] 10) 10 .up = .panicked ∧
      upgrade (failingAt (.content "0") [10] 10) fullUpdate =
        ⟨.panicked, .content "0", [.listed, .ran 10 .up]⟩ := by
  decide

end Migrations
